import Mathlib

/-!
Shallow embedding of the `rum` universal-machine interpreter
(src/rum/src/memory.rs, src/rum/src/machine.rs) and verification of the
frozen claims about it.

Modelling conventions:
* `u32` values are `Nat` with an explicit `% 2^32` wherever the Rust code
  wraps or casts (`as u32`); `u64` likewise with `% 2^64`.
* `HashMap<u32, Vec<u32>>` is an association list whose keys stay distinct
  by construction: `hInsert` replaces the value when the key is present and
  appends otherwise, and keys are never removed (the Rust code never calls
  `remove`), so `heap.len()` is the list length.
* The reuse pool `Vec<u32>` is used only as a stack (push/pop at the end);
  it is embedded as a `List Nat` with the top of the stack at the head.
* A Rust `panic!` / failed `assert!` / `unwrap` on a missing key or an
  out-of-bounds index is a fault, embedded as `Option`/`none` (and as the
  `StepResult.fault` outcome at machine level).
* Register indices fed to `Registers` always come from a decoded
  instruction's 3-bit fields (`&&& 7`), hence are `< 8`; the register file
  is a total function `Nat → Nat` on which the Rust bounds check can never
  fire for the indices actually used.
-/

namespace Rum

/-- 2^32, the modulus of `u32` arithmetic. -/
def U32MOD : Nat := 2 ^ 32

/-- 2^64, the modulus of `u64` arithmetic. -/
def U64MOD : Nat := 2 ^ 64

/-! ### Association-list model of `HashMap<u32, Vec<u32>>` -/

/-- The heap: segment id ↦ segment contents. -/
abbrev Heap := List (Nat × List Nat)

/-- `HashMap::get`. -/
def hLookup : Heap → Nat → Option (List Nat)
  | [], _ => none
  | (k, v) :: t, k' => if k = k' then some v else hLookup t k'

/-- `HashMap::insert`: replace the value when the key is present, append
otherwise (so keys built only by `hInsert` stay distinct). -/
def hInsert : Heap → Nat → List Nat → Heap
  | [], k, v => [(k, v)]
  | (k', v') :: t, k, v =>
      if k' = k then (k', v) :: t else (k', v') :: hInsert t k v

/-- `HashMap::get_mut` followed by an in-place mutation of the value:
apply `f` to the value stored at `k` (identity when `k` is absent; callers
model the `unwrap` fault by checking `hLookup` first). -/
def hModify : Heap → Nat → (List Nat → List Nat) → Heap
  | [], _, _ => []
  | (k', v) :: t, k, f =>
      if k' = k then (k', f v) :: t else (k', v) :: hModify t k f

/-- `Vec::resize(size, 0)`: truncate to `size` when shrinking, pad with
zeros when growing. -/
def vecResize (v : List Nat) (size : Nat) : List Nat :=
  v.take size ++ List.replicate (size - v.length) 0

/-! ### `Memory` (src/rum/src/memory.rs) -/

/-- `const PROGRAM_ADDRESS: u32 = 0`. -/
def PROGRAM_ADDRESS : Nat := 0

/-- `struct Memory { pool: Vec<u32>, heap: HashMap<u32, Vec<u32>> }`. -/
structure Memory where
  pool : List Nat
  heap : Heap
deriving DecidableEq

/-- `Memory::new`: empty pool, heap holding the program as segment 0. -/
def Memory.new (instructions : List Nat) : Memory :=
  ⟨[], [(0, instructions)]⟩

/-- `Memory::allocate`: pop the reuse pool; on `None` mint
`heap.len() as u32` and insert a fresh zeroed segment, on `Some(address)`
assert `address < heap.len() as u32` (fault otherwise), then resize the
slot to `size` zeros (`unwrap` faults when the key is absent). -/
def Memory.allocate (m : Memory) (size : Nat) : Option (Nat × Memory) :=
  match m.pool with
  | [] =>
      let x := m.heap.length % U32MOD
      some (x, ⟨[], hInsert m.heap x (List.replicate size 0)⟩)
  | address :: rest =>
      if address < m.heap.length % U32MOD then
        match hLookup m.heap address with
        | some v =>
            some (address, ⟨rest, hModify m.heap address fun _ => vecResize v size⟩)
        | none => none
      else none

/-- `Memory::deallocate`: assert `address < heap.len() as u32` (fault
otherwise), push the id on the pool and clear the slot's contents
(`unwrap` faults when the key is absent). -/
def Memory.deallocate (m : Memory) (address : Nat) : Option Memory :=
  if address < m.heap.length % U32MOD then
    match hLookup m.heap address with
    | some _ => some ⟨address :: m.pool, hModify m.heap address fun _ => []⟩
    | none => none
  else none

/-- `Memory::load`: `heap.get(&seg_id).unwrap()[address]`; faults when the
segment is absent or the offset is out of bounds. -/
def Memory.load (m : Memory) (seg_id address : Nat) : Option Nat :=
  match hLookup m.heap seg_id with
  | some v => v[address]?
  | none => none

/-- `Memory::get_instruction`: `heap.get(&PROGRAM_ADDRESS).unwrap()[pc]`. -/
def Memory.get_instruction (m : Memory) (pc : Nat) : Option Nat :=
  match hLookup m.heap PROGRAM_ADDRESS with
  | some v => v[pc]?
  | none => none

/-- `Memory::store`: write `value` at `address` of segment `seg_id`;
faults when the segment is absent or the offset is out of bounds. -/
def Memory.store (m : Memory) (seg_id address value : Nat) : Option Memory :=
  match hLookup m.heap seg_id with
  | some v =>
      if address < v.length then
        some ⟨m.pool, hModify m.heap seg_id fun w => w.set address value⟩
      else none
  | none => none

/-- `Memory::load_segment`: clone the contents of segment `seg_id` (fault
when absent) and overwrite segment 0's contents with the copy. -/
def Memory.load_segment (m : Memory) (seg_id : Nat) : Option Memory :=
  match hLookup m.heap seg_id with
  | some program =>
      match hLookup m.heap PROGRAM_ADDRESS with
      | some _ => some ⟨m.pool, hModify m.heap PROGRAM_ADDRESS fun _ => program⟩
      | none => none
  | none => none

/-! ### Instruction decoding (src/rum/src/machine.rs) -/

/-- `enum Opcode`. -/
inductive Opcode where
  | CMov | Load | Store | Add | Mul | Div | Nand | Halt
  | MapSegment | UnmapSegment | Output | Input | LoadProgram | LoadValue
deriving DecidableEq, Fintype

/-- The discriminant of an opcode (its `#[repr(u32)]` value). -/
def opcodeNum : Opcode → Nat
  | .CMov => 0 | .Load => 1 | .Store => 2 | .Add => 3
  | .Mul => 4 | .Div => 5 | .Nand => 6 | .Halt => 7
  | .MapSegment => 8 | .UnmapSegment => 9 | .Output => 10 | .Input => 11
  | .LoadProgram => 12 | .LoadValue => 13

/-- The `match` arm table of `parse_opcode`, indexed by the opcode nibble. -/
def parse_nibble : Nat → Option Opcode
  | 0 => some .CMov
  | 1 => some .Load
  | 2 => some .Store
  | 3 => some .Add
  | 4 => some .Mul
  | 5 => some .Div
  | 6 => some .Nand
  | 7 => some .Halt
  | 8 => some .MapSegment
  | 9 => some .UnmapSegment
  | 10 => some .Output
  | 11 => some .Input
  | 12 => some .LoadProgram
  | 13 => some .LoadValue
  | _ => none

/-- `parse_opcode`: match on `(instruction >> 28) & 0b1111`. -/
def parse_opcode (instruction : Nat) : Option Opcode :=
  parse_nibble ((instruction >>> 28) &&& 15)

/-- `struct Instruction` (fields not set by `decode` stay 0). -/
structure Instruction where
  opcode : Opcode
  ra : Nat
  rb : Nat
  rc : Nat
  value : Nat
deriving DecidableEq

/-- `Instruction::decode`: parse the opcode (`none` when the nibble is 14
or 15), then fill `ra`/`value` for `LoadValue` and `ra`/`rb`/`rc` for every
other opcode.  `(instruction << 7) >> 7` is a `u32` shift, hence the
explicit `% U32MOD` after the left shift. -/
def Instruction.decode (instruction : Nat) : Option Instruction :=
  match parse_opcode instruction with
  | none => none
  | some opcode =>
      match opcode with
      | .LoadValue =>
          some ⟨opcode, (instruction >>> 25) &&& 7, 0, 0,
                ((instruction <<< 7) % U32MOD) >>> 7⟩
      | _ =>
          some ⟨opcode, (instruction >>> 6) &&& 7, (instruction >>> 3) &&& 7,
                instruction &&& 7, 0⟩

/-! ### The execution engine (src/rum/src/machine.rs, `run`) -/

/-- `Registers::new`: eight registers, all 0 (total function, indices 0–7
are the only ones ever used). -/
def Registers.new : Nat → Nat := fun _ => 0

/-- Write register `i`. -/
def regSet (r : Nat → Nat) (i v : Nat) : Nat → Nat :=
  fun j => if j = i then v else r j

/-- `!(x)` on `u32`: bitwise complement. -/
def u32not (x : Nat) : Nat := (U32MOD - 1) - x % U32MOD

/-- The whole machine state of `run`: the memory, the register file, the
program counter, the executed-instruction counter, and the two byte
streams (output produced so far, input still unread). -/
structure MachState where
  segmap : Memory
  r : Nat → Nat
  pc : Nat
  inst_counter : Nat
  output : List Nat
  input : List Nat

/-- Outcome of one iteration of the `loop`: keep running with a new state,
exit the process successfully (`Halt`), or `panic!` (any fault). -/
inductive StepResult where
  | running (s : MachState)
  | halted (s : MachState)
  | fault

/-- One fetch-decode-dispatch cycle of `run`: fetch the word at `pc` from
segment 0, decode it (`panic!` on an illegal instruction), bump the
counter and the `pc` (both wrap), and dispatch on the opcode exactly as
the Rust `match` does. -/
def step (s : MachState) : StepResult :=
  match s.segmap.get_instruction s.pc with
  | none => .fault
  | some w =>
      match Instruction.decode w with
      | none => .fault
      | some instr =>
          let s := { s with inst_counter := (s.inst_counter + 1) % U64MOD,
                            pc := (s.pc + 1) % U32MOD }
          match instr.opcode with
          | .CMov =>
              .running (if s.r instr.rc ≠ 0 then
                          { s with r := regSet s.r instr.ra (s.r instr.rb) }
                        else s)
          | .Load =>
              match s.segmap.load (s.r instr.rb) (s.r instr.rc) with
              | some v => .running { s with r := regSet s.r instr.ra v }
              | none => .fault
          | .Store =>
              match s.segmap.store (s.r instr.ra) (s.r instr.rb) (s.r instr.rc) with
              | some m => .running { s with segmap := m }
              | none => .fault
          | .Add =>
              .running { s with
                r := regSet s.r instr.ra ((s.r instr.rb + s.r instr.rc) % U32MOD) }
          | .Mul =>
              .running { s with
                r := regSet s.r instr.ra ((s.r instr.rb * s.r instr.rc) % U32MOD) }
          | .Div =>
              if s.r instr.rc = 0 then .fault
              else .running { s with
                r := regSet s.r instr.ra (s.r instr.rb / s.r instr.rc) }
          | .Nand =>
              .running { s with
                r := regSet s.r instr.ra (u32not (s.r instr.rb &&& s.r instr.rc)) }
          | .Halt => .halted s
          | .MapSegment =>
              match s.segmap.allocate (s.r instr.rc) with
              | some (id, m) =>
                  .running { s with segmap := m, r := regSet s.r instr.rb id }
              | none => .fault
          | .UnmapSegment =>
              match s.segmap.deallocate (s.r instr.rc) with
              | some m => .running { s with segmap := m }
              | none => .fault
          | .Output =>
              .running { s with output := s.output ++ [s.r instr.rc % 256] }
          | .Input =>
              match s.input with
              | b :: rest =>
                  .running { s with r := regSet s.r instr.rc b, input := rest }
              | [] => .running { s with r := regSet s.r instr.rc (U32MOD - 1) }
          | .LoadProgram =>
              match s.segmap.load_segment (s.r instr.rb) with
              | some m => .running { s with segmap := m, pc := s.r instr.rc }
              | none => .fault
          | .LoadValue =>
              .running { s with r := regSet s.r instr.ra instr.value }

/-- The `loop` of `run`, fuelled: `none` means the fuel ran out while the
machine was still running; `some (.halted s)` is the successful
`process::exit(0)` after the diagnostic; `some .fault` is a `panic!`. -/
def runLoop : Nat → MachState → Option StepResult
  | 0, _ => none
  | fuel + 1, s =>
      match step s with
      | .running s' => runLoop fuel s'
      | r => some r

/-- `run(program)` with a given input stream: start at `pc = 0` with all
registers 0 and the program loaded as segment 0. -/
def run (program input : List Nat) (fuel : Nat) : Option StepResult :=
  runLoop fuel ⟨Memory.new program, Registers.new, 0, 0, [], input⟩

/-! ### Sequences of memory operations (for the allocation claims) -/

/-- Run a sequence of allocations, collecting the returned segment ids. -/
def allocSeq (m : Memory) : List Nat → Option (List Nat × Memory)
  | [] => some ([], m)
  | size :: rest =>
      match m.allocate size with
      | none => none
      | some (id, m') =>
          match allocSeq m' rest with
          | none => none
          | some (ids, m'') => some (id :: ids, m'')

/-- One fallible memory-manager operation. -/
inductive MemOp where
  | alloc (size : Nat)
  | dealloc (id : Nat)
  | store (seg_id address value : Nat)
  | loadSeg (id : Nat)
deriving DecidableEq

/-- Apply one memory-manager operation (`none` = fault). -/
def applyOp (m : Memory) : MemOp → Option Memory
  | .alloc size => (m.allocate size).map (·.2)
  | .dealloc id => m.deallocate id
  | .store a b c => m.store a b c
  | .loadSeg id => m.load_segment id

/-- Apply a sequence of memory-manager operations, stopping at a fault. -/
def applyOps (m : Memory) : List MemOp → Option Memory
  | [] => some m
  | op :: rest =>
      match applyOp m op with
      | none => none
      | some m' => applyOps m' rest

/-- The memory-manager invariant: segment 0 exists, the key set of the
segment table is exactly `{0, …, heap.length − 1}`, and every pooled id is
below the table size. -/
def MemInv (m : Memory) : Prop :=
  0 < m.heap.length ∧
  (∀ k, (hLookup m.heap k).isSome ↔ k < m.heap.length) ∧
  (∀ id ∈ m.pool, id < m.heap.length)

end Rum

namespace Rum

/-! ### Helper lemmas about the association-list heap -/

theorem hLookup_hModify (h : Heap) (k : Nat) (f : List Nat → List Nat) (k' : Nat) :
    hLookup (hModify h k f) k' =
      if k' = k then (hLookup h k).map f else hLookup h k' := by
  induction h with
  | nil => simp [hModify, hLookup]
  | cons p t ih =>
      obtain ⟨a, v⟩ := p
      by_cases hak : a = k
      · subst hak
        by_cases hak' : a = k'
        · subst hak'; simp [hModify, hLookup]
        · simp [hModify, hLookup, hak', Ne.symm hak']
      · by_cases hak' : a = k'
        · subst hak'
          simp [hModify, hLookup, hak, Ne.symm hak]
        · simp [hModify, hLookup, hak, hak', Ne.symm hak', ih]

theorem hModify_length (h : Heap) (k : Nat) (f : List Nat → List Nat) :
    (hModify h k f).length = h.length := by
  induction h with
  | nil => rfl
  | cons p t ih =>
      obtain ⟨a, v⟩ := p
      by_cases hak : a = k <;> simp [hModify, hak, ih]

theorem hLookup_hInsert (h : Heap) (k : Nat) (v : List Nat) (k' : Nat) :
    hLookup (hInsert h k v) k' = if k' = k then some v else hLookup h k' := by
  induction h with
  | nil =>
      by_cases hk : k = k'
      · subst hk; simp [hInsert, hLookup]
      · simp [hInsert, hLookup, hk, Ne.symm hk]
  | cons p t ih =>
      obtain ⟨a, w⟩ := p
      by_cases hak : a = k
      · subst hak
        by_cases hak' : a = k'
        · subst hak'; simp [hInsert, hLookup]
        · simp [hInsert, hLookup, hak', Ne.symm hak']
      · by_cases hak' : a = k'
        · subst hak'
          simp [hInsert, hLookup, hak, Ne.symm hak]
        · simp [hInsert, hLookup, hak, hak', Ne.symm hak', ih]

theorem hInsert_length (h : Heap) (k : Nat) (v : List Nat) :
    (hInsert h k v).length =
      if (hLookup h k).isSome then h.length else h.length + 1 := by
  induction h with
  | nil => simp [hInsert, hLookup]
  | cons p t ih =>
      obtain ⟨a, w⟩ := p
      by_cases hak : a = k <;> simp [hInsert, hLookup, hak, ih]
      by_cases ht : (hLookup t k).isSome <;> simp [ht]

theorem mem_hInsert (h : Heap) (k : Nat) (v : List Nat) (p : Nat × List Nat)
    (hp : p ∈ hInsert h k v) : p = (k, v) ∨ p ∈ h := by
  induction h with
  | nil => simpa [hInsert] using hp
  | cons q t ih =>
      obtain ⟨a, w⟩ := q
      by_cases hak : a = k
      · subst hak
        simp [hInsert] at hp
        rcases hp with hp | hp
        · exact .inl (by simp [hp])
        · exact .inr (by simp [hp])
      · simp [hInsert, hak] at hp
        rcases hp with hp | hp
        · exact .inr (by simp [hp])
        · rcases ih hp with hi | hi
          · exact .inl hi
          · exact .inr (by simp [hi])

theorem hLookup_isSome_of_mem (h : Heap) (k : Nat) (v : List Nat)
    (hp : (k, v) ∈ h) : (hLookup h k).isSome := by
  induction h with
  | nil => simp at hp
  | cons q t ih =>
      obtain ⟨a, w⟩ := q
      rcases List.mem_cons.1 hp with hq | hq
      · obtain ⟨rfl, rfl⟩ := Prod.mk.injEq .. ▸ hq
        simp [hLookup]
      · by_cases hak : a = k <;> simp [hLookup, hak, ih hq]

theorem vecResize_nil (size : Nat) : vecResize [] size = List.replicate size 0 := by
  simp [vecResize]

end Rum

namespace Rum

/-! ### Observables of a step outcome -/

/-- Whether a step outcome is the `panic!` fault. -/
def StepResult.isFault : StepResult → Bool
  | .fault => true
  | _ => false

/-- The output stream of a step outcome (`none` after a fault). -/
def StepResult.outList : StepResult → Option (List Nat)
  | .running s => some s.output
  | .halted s => some s.output
  | .fault => none

/-! ### Claim C1 (deallocate) -/

/-- Claim C1 counterexample: on the machine state fresh from
`Memory::new([7])`, `deallocate(0)` does not fault — it succeeds, clears
segment 0 and pushes the id 0 onto the reuse pool — and deallocating 0 a
second time (an already-freed id) succeeds again, pushing 0 a second
time.  This refutes both fault conditions of the claim and its corollary
that id 0 never reaches the pool. -/
theorem C1_counterexample :
    (Memory.new [7]).deallocate 0 = some ⟨[0], [(0, [])]⟩ ∧
    (⟨[0], [(0, [])]⟩ : Memory).deallocate 0 = some ⟨[0, 0], [(0, [])]⟩ := by
  decide

/-- Claim C1 (amended): `deallocate(segment_id)` faults exactly when
`segment_id` is at least the segment-table size (an id never allocated);
for every id below the table size — including 0 and ids already freed — it
succeeds, pushes the id onto the reuse pool and clears that segment's
contents. -/
theorem C1_deallocate (m : Memory) (id : Nat) :
    (m.heap.length % U32MOD ≤ id → m.deallocate id = none) ∧
    (∀ v, id < m.heap.length % U32MOD → hLookup m.heap id = some v →
        m.deallocate id = some ⟨id :: m.pool, hModify m.heap id fun _ => []⟩ ∧
        hLookup (hModify m.heap id fun _ => []) id = some []) := by
  constructor
  · intro hle
    simp [Memory.deallocate, Nat.not_lt.2 hle]
  · intro v hlt hv
    refine ⟨?_, ?_⟩
    · simp [Memory.deallocate, hlt, hv]
    · simp [hLookup_hModify, hv]

/-- Witness for `C1_deallocate` at table size 1: id 5 faults, id 0
succeeds with cleared contents. -/
theorem C1_deallocate_witness :
    (Memory.new [7]).deallocate 5 = none ∧
    (Memory.new [7]).deallocate 0 = some ⟨[0], [(0, [])]⟩ ∧
    hLookup (hModify (Memory.new [7]).heap 0 fun _ => []) 0 = some [] :=
  ⟨(C1_deallocate (Memory.new [7]) 5).1 (by decide),
   ((C1_deallocate (Memory.new [7]) 0).2 [7] (by decide) (by decide)).1,
   ((C1_deallocate (Memory.new [7]) 0).2 [7] (by decide) (by decide)).2⟩

/-! ### Claim C2 (Output) -/

/-- Claim C2 counterexample: with `r[0] = 300 > 255` and an `Output rc=0`
instruction (word `10 << 28`), the step does not fault and the byte
`300 mod 256 = 44` is written to the output stream (the Rust code
truncates with `as u8`; there is no range check). -/
theorem C2_counterexample :
    StepResult.isFault
        (step ⟨Memory.new [2684354560], regSet Registers.new 0 300, 0, 0, [], []⟩)
      = false ∧
    StepResult.outList
        (step ⟨Memory.new [2684354560], regSet Registers.new 0 300, 0, 0, [], []⟩)
      = some [44] := by
  decide

/-- Claim C2 (amended): every execution of an Output instruction writes
the low 8 bits of `r[rc]` (`r[rc] mod 256`) to the output byte stream and
never faults; values above 255 are truncated, not rejected. -/
theorem C2_output (s : MachState) (w : Nat) (instr : Instruction)
    (hw : s.segmap.get_instruction s.pc = some w)
    (hd : Instruction.decode w = some instr)
    (hop : instr.opcode = Opcode.Output) :
    step s = .running { s with inst_counter := (s.inst_counter + 1) % U64MOD,
                               pc := (s.pc + 1) % U32MOD,
                               output := s.output ++ [s.r instr.rc % 256] } := by
  simp only [step, hw, hd, hop]

/-- Witness for `C2_output`: a concrete Output step appending one byte. -/
theorem C2_output_witness :
    step ⟨Memory.new [2684354560], regSet Registers.new 0 300, 0, 0, [], []⟩ =
      .running ⟨Memory.new [2684354560], regSet Registers.new 0 300, 1, 1, [44], []⟩ :=
  C2_output ⟨Memory.new [2684354560], regSet Registers.new 0 300, 0, 0, [], []⟩
    2684354560 ⟨.Output, 0, 0, 0, 0⟩ rfl rfl rfl

end Rum

namespace Rum

/-! ### Claim C3 (Divide) -/

/-- Claim C3: executing a Divide instruction writes the truncating
unsigned quotient `r[rb] / r[rc]` into `r[ra]` when `r[rc] ≠ 0`, and when
`r[rc] = 0` the step is a fatal fault — no register is written (the fault
outcome discards the state) and the run loop executes nothing further. -/
theorem C3_div (s : MachState) (w : Nat) (instr : Instruction)
    (hw : s.segmap.get_instruction s.pc = some w)
    (hd : Instruction.decode w = some instr)
    (hop : instr.opcode = Opcode.Div) :
    (s.r instr.rc ≠ 0 →
      step s = .running { s with inst_counter := (s.inst_counter + 1) % U64MOD,
                                 pc := (s.pc + 1) % U32MOD,
                                 r := regSet s.r instr.ra (s.r instr.rb / s.r instr.rc) }) ∧
    (s.r instr.rc = 0 →
      step s = .fault ∧ ∀ fuel, runLoop (fuel + 1) s = some .fault) := by
  constructor
  · intro hne
    simp only [step, hw, hd, hop, if_neg hne]
  · intro hz
    have hf : step s = .fault := by
      simp only [step, hw, hd, hop, hz, ite_true, eq_self_iff_true]
    exact ⟨hf, fun fuel => by simp only [runLoop, hf]⟩

/-- Witness for `C3_div`: `7 / 2 = 3` lands in `r[0]`, and a zero divisor
faults with the loop stopping at once. -/
theorem C3_div_witness :
    (step ⟨Memory.new [1342177290], regSet (regSet Registers.new 1 7) 2 2, 0, 0, [], []⟩ =
      .running ⟨Memory.new [1342177290],
                regSet (regSet (regSet Registers.new 1 7) 2 2) 0 3, 1, 1, [], []⟩) ∧
    (step ⟨Memory.new [1342177290], regSet Registers.new 1 7, 0, 0, [], []⟩ = .fault) ∧
    runLoop 4 ⟨Memory.new [1342177290], regSet Registers.new 1 7, 0, 0, [], []⟩ =
      some .fault :=
  ⟨(C3_div ⟨Memory.new [1342177290], regSet (regSet Registers.new 1 7) 2 2, 0, 0, [], []⟩
      1342177290 ⟨.Div, 0, 1, 2, 0⟩ rfl rfl rfl).1 (by decide),
   ((C3_div ⟨Memory.new [1342177290], regSet Registers.new 1 7, 0, 0, [], []⟩
      1342177290 ⟨.Div, 0, 1, 2, 0⟩ rfl rfl rfl).2 rfl).1,
   ((C3_div ⟨Memory.new [1342177290], regSet Registers.new 1 7, 0, 0, [], []⟩
      1342177290 ⟨.Div, 0, 1, 2, 0⟩ rfl rfl rfl).2 rfl).2 3⟩

/-! ### Claim C4 (Add / Multiply wraparound) -/

/-- Claim C4: Add stores `(r[rb] + r[rc]) mod 2^32` and Multiply stores
`(r[rb] * r[rc]) mod 2^32` into `r[ra]`; in particular `0xFFFFFFFF + 1`
wraps to 0 (see the witness). -/
theorem C4_add_mul (s : MachState) (w : Nat) (instr : Instruction)
    (hw : s.segmap.get_instruction s.pc = some w)
    (hd : Instruction.decode w = some instr) :
    (instr.opcode = Opcode.Add →
      step s = .running { s with inst_counter := (s.inst_counter + 1) % U64MOD,
                                 pc := (s.pc + 1) % U32MOD,
                                 r := regSet s.r instr.ra
                                        ((s.r instr.rb + s.r instr.rc) % U32MOD) }) ∧
    (instr.opcode = Opcode.Mul →
      step s = .running { s with inst_counter := (s.inst_counter + 1) % U64MOD,
                                 pc := (s.pc + 1) % U32MOD,
                                 r := regSet s.r instr.ra
                                        ((s.r instr.rb * s.r instr.rc) % U32MOD) }) := by
  constructor
  · intro hop
    simp only [step, hw, hd, hop]
  · intro hop
    simp only [step, hw, hd, hop]

/-- Witness for `C4_add_mul`: with `r[1] = 0xFFFFFFFF` and `r[2] = 1`,
Add yields `r[0] = 0`; with `r[1] = 2^31` and `r[2] = 2`, Multiply yields
`r[0] = 0`. -/
theorem C4_add_mul_witness :
    (step ⟨Memory.new [805306378], regSet (regSet Registers.new 1 4294967295) 2 1,
           0, 0, [], []⟩ =
      .running ⟨Memory.new [805306378],
                regSet (regSet (regSet Registers.new 1 4294967295) 2 1) 0 0,
                1, 1, [], []⟩) ∧
    (step ⟨Memory.new [1073741834], regSet (regSet Registers.new 1 2147483648) 2 2,
           0, 0, [], []⟩ =
      .running ⟨Memory.new [1073741834],
                regSet (regSet (regSet Registers.new 1 2147483648) 2 2) 0 0,
                1, 1, [], []⟩) :=
  ⟨(C4_add_mul ⟨Memory.new [805306378],
      regSet (regSet Registers.new 1 4294967295) 2 1, 0, 0, [], []⟩
      805306378 ⟨.Add, 0, 1, 2, 0⟩ rfl rfl).1 rfl,
   (C4_add_mul ⟨Memory.new [1073741834],
      regSet (regSet Registers.new 1 2147483648) 2 2, 0, 0, [], []⟩
      1073741834 ⟨.Mul, 0, 1, 2, 0⟩ rfl rfl).2 rfl⟩

end Rum

namespace Rum

/-! ### Claim C5 (deallocate-then-allocate LIFO reuse) -/

/-- Claim C5: deallocating a live segment `X ≠ 0` and then allocating
immediately reissues `X` (the most-recently-freed id, LIFO), and the new
segment `X` has exactly `size` words, all zero, whatever its contents `v`
were before; the reuse pool ends where it started. -/
theorem C5_lifo_reuse (m : Memory) (X size : Nat) (v : List Nat)
    (hX0 : X ≠ 0) (hlt : X < m.heap.length % U32MOD)
    (hv : hLookup m.heap X = some v) :
    ∃ m' m'', m.deallocate X = some m' ∧ m'.allocate size = some (X, m'') ∧
      hLookup m''.heap X = some (List.replicate size 0) ∧ m''.pool = m.pool := by
  refine ⟨⟨X :: m.pool, hModify m.heap X fun _ => []⟩,
          ⟨m.pool, hModify (hModify m.heap X fun _ => []) X
                     fun _ => vecResize [] size⟩, ?_, ?_, ?_, rfl⟩
  · simp [Memory.deallocate, hlt, hv]
  · simp [Memory.allocate, hModify_length, hlt, hLookup_hModify, hv]
  · simp [hLookup_hModify, hv, vecResize_nil]

/-- Witness for `C5_lifo_reuse`: free segment 1 holding `[5, 6]`, then
allocate 3 words; segment 1 comes back as `[0, 0, 0]`. -/
theorem C5_lifo_reuse_witness :
    ∃ m' m'', (⟨[], [(0, [9]), (1, [5, 6])]⟩ : Memory).deallocate 1 = some m' ∧
      m'.allocate 3 = some (1, m'') ∧
      hLookup m''.heap 1 = some (List.replicate 3 0) ∧ m''.pool = [] :=
  C5_lifo_reuse ⟨[], [(0, [9]), (1, [5, 6])]⟩ 1 3 [5, 6]
    (by decide) (by decide) (by decide)

/-! ### Claim C6 (fresh allocation ids are 1, 2, 3, …) -/

/-- Keys absent from a heap have no binding. -/
theorem hLookup_eq_none (h : Heap) (k : Nat) (hk : ∀ p ∈ h, p.1 ≠ k) :
    hLookup h k = none := by
  induction h with
  | nil => rfl
  | cons q t ih =>
      obtain ⟨a, w⟩ := q
      have ha : a ≠ k := hk (a, w) (by simp)
      exact (if_neg ha).trans (ih fun p hp => hk p (by simp [hp]))

/-- With an empty pool and all heap keys below the table size, a run of
allocations mints the consecutive ids `len, len+1, …` and preserves those
properties. -/
theorem allocSeq_mint (szs : List Nat) : ∀ m : Memory, m.pool = [] →
    (∀ p ∈ m.heap, p.1 < m.heap.length) →
    m.heap.length + szs.length ≤ U32MOD →
    ∃ m', allocSeq m szs = some (List.range' m.heap.length szs.length, m') ∧
      m'.pool = [] ∧ m'.heap.length = m.heap.length + szs.length ∧
      ∀ p ∈ m'.heap, p.1 < m'.heap.length := by
  induction szs with
  | nil =>
      intro m hpool hkeys _
      exact ⟨m, by simp [allocSeq], hpool, by simp, hkeys⟩
  | cons size rest ih =>
      intro m hpool hkeys hbound
      have hlen : m.heap.length < U32MOD := by
        have := hbound; simp at this; omega
      have hx : m.heap.length % U32MOD = m.heap.length := Nat.mod_eq_of_lt hlen
      have habsent : hLookup m.heap m.heap.length = none :=
        hLookup_eq_none _ _ fun p hp => Nat.ne_of_lt (hkeys p hp)
      have hins : (hInsert m.heap m.heap.length (List.replicate size 0)).length =
          m.heap.length + 1 := by
        rw [hInsert_length, habsent]; simp
      have hkeys' : ∀ p ∈ hInsert m.heap m.heap.length (List.replicate size 0),
          p.1 < (hInsert m.heap m.heap.length (List.replicate size 0)).length := by
        intro p hp
        rw [hins]
        rcases mem_hInsert _ _ _ _ hp with hq | hq
        · simp [hq]
        · exact Nat.lt_succ_of_lt (hkeys p hq)
      obtain ⟨m', hseq, hp', hl', hk'⟩ :=
        ih ⟨[], hInsert m.heap m.heap.length (List.replicate size 0)⟩ rfl hkeys'
          (by simp only [hins]; simp at hbound ⊢; omega)
      refine ⟨m', ?_, hp', ?_, hk'⟩
      · simp only [allocSeq, Memory.allocate, hpool, hx]
        rw [hseq]
        simp [hins, List.range'_succ]
      · simp only [hins] at hl'
        simp at hl' ⊢
        omega

/-- Claim C6: starting from a fresh `Memory`, a run of allocations with no
intervening deallocation (here: any run short enough for the `u32` cast of
`heap.len()` to be lossless) returns the segment ids `1, 2, 3, …` in
order — each minted id is the table size at mint time. -/
theorem C6_fresh_ids (prog : List Nat) (szs : List Nat)
    (hbound : 1 + szs.length ≤ U32MOD) :
    ∃ m', allocSeq (Memory.new prog) szs = some (List.range' 1 szs.length, m') := by
  obtain ⟨m', hseq, -, -, -⟩ :=
    allocSeq_mint szs (Memory.new prog) rfl
      (by simp [Memory.new]) (by simpa [Memory.new] using hbound)
  exact ⟨m', by simpa [Memory.new] using hseq⟩

/-- Witness for `C6_fresh_ids`: three allocations from a fresh memory
return ids 1, 2, 3. -/
theorem C6_fresh_ids_witness :
    ∃ m', allocSeq (Memory.new [0]) [2, 0, 3] = some ([1, 2, 3], m') :=
  C6_fresh_ids [0] [2, 0, 3] (by decide)

/-! ### Claim C7 (Halt) -/

/-- Claim C7: executing Halt yields the terminal, successful `halted`
outcome carrying the executed-instruction count, and however much fuel the
loop is given, nothing further is fetched or executed — the outcome is the
same whatever else segment 0 holds. -/
theorem C7_halt (s : MachState) (w : Nat) (instr : Instruction)
    (hw : s.segmap.get_instruction s.pc = some w)
    (hd : Instruction.decode w = some instr)
    (hop : instr.opcode = Opcode.Halt) :
    step s = .halted { s with inst_counter := (s.inst_counter + 1) % U64MOD,
                              pc := (s.pc + 1) % U32MOD } ∧
    ∀ fuel, runLoop (fuel + 1) s =
      some (.halted { s with inst_counter := (s.inst_counter + 1) % U64MOD,
                             pc := (s.pc + 1) % U32MOD }) := by
  have hstep : step s = StepResult.halted
      { s with inst_counter := (s.inst_counter + 1) % U64MOD,
               pc := (s.pc + 1) % U32MOD } := by
    simp only [step, hw, hd, hop]
  exact ⟨hstep, fun fuel => by simp only [runLoop, hstep]⟩

/-- Witness for `C7_halt`: a Halt word followed by residual words 123 and
456 in segment 0 halts at once with 1 instruction executed, for any
fuel (here 5). -/
theorem C7_halt_witness :
    step ⟨Memory.new [1879048192, 123, 456], Registers.new, 0, 0, [], []⟩ =
      .halted ⟨Memory.new [1879048192, 123, 456], Registers.new, 1, 1, [], []⟩ ∧
    runLoop 5 ⟨Memory.new [1879048192, 123, 456], Registers.new, 0, 0, [], []⟩ =
      some (.halted ⟨Memory.new [1879048192, 123, 456], Registers.new, 1, 1, [], []⟩) :=
  ⟨(C7_halt ⟨Memory.new [1879048192, 123, 456], Registers.new, 0, 0, [], []⟩
      1879048192 ⟨.Halt, 0, 0, 0, 0⟩ rfl rfl rfl).1,
   (C7_halt ⟨Memory.new [1879048192, 123, 456], Registers.new, 0, 0, [], []⟩
      1879048192 ⟨.Halt, 0, 0, 0, 0⟩ rfl rfl rfl).2 4⟩

end Rum

namespace Rum

/-! ### Claim C8 (load_segment / Load Program) -/

/-- Claim C8: when segment `r[rb]` exists with contents `v`, a Load
Program step replaces the entire contents of segment 0 with a copy of
`v` — segment 0's identity survives (it is still key 0, the table size and
the pool are unchanged, every other segment keeps its contents) — and sets
`PC := r[rc]`; when `r[rc] = 0`, the next fetch returns `v`'s first word,
not the old segment 0's. -/
theorem C8_load_program (s : MachState) (w : Nat) (instr : Instruction)
    (v : List Nat)
    (hw : s.segmap.get_instruction s.pc = some w)
    (hd : Instruction.decode w = some instr)
    (hop : instr.opcode = Opcode.LoadProgram)
    (hv : hLookup s.segmap.heap (s.r instr.rb) = some v) :
    ∃ s', step s = .running s' ∧
      s'.pc = s.r instr.rc ∧
      hLookup s'.segmap.heap 0 = some v ∧
      (∀ k, k ≠ 0 → hLookup s'.segmap.heap k = hLookup s.segmap.heap k) ∧
      s'.segmap.pool = s.segmap.pool ∧
      s'.segmap.heap.length = s.segmap.heap.length ∧
      (s.r instr.rc = 0 → s'.segmap.get_instruction s'.pc = v[0]?) := by
  have h0 : ∃ v0, hLookup s.segmap.heap 0 = some v0 := by
    revert hw
    unfold Memory.get_instruction PROGRAM_ADDRESS
    cases hLookup s.segmap.heap 0 with
    | none => intro h; cases h
    | some v0 => exact fun _ => ⟨v0, rfl⟩
  obtain ⟨v0, hv0⟩ := h0
  have hls : s.segmap.load_segment (s.r instr.rb) =
      some ⟨s.segmap.pool, hModify s.segmap.heap 0 fun _ => v⟩ := by
    unfold Memory.load_segment PROGRAM_ADDRESS
    rw [hv, hv0]
  refine ⟨{ s with segmap := ⟨s.segmap.pool, hModify s.segmap.heap 0 fun _ => v⟩,
                   pc := s.r instr.rc,
                   inst_counter := (s.inst_counter + 1) % U64MOD },
          ?_, rfl, ?_, ?_, rfl, ?_, ?_⟩
  · simp only [step, hw, hd, hop, hls]
  · simp [hLookup_hModify, hv0]
  · intro k hk
    simp [hLookup_hModify, hk]
  · simp [hModify_length]
  · intro hrc
    simp [Memory.get_instruction, PROGRAM_ADDRESS, hLookup_hModify, hv0, hrc]

/-- Witness for `C8_load_program`: segment 0 = one Load Program word
(`rb = 1`, `rc = 2`), segment 1 = `[42, 43]`, with `r[1] = 1` and
`r[2] = 0`; after the step the fetch at PC 0 yields 42. -/
theorem C8_load_program_witness :
    ∃ s', step ⟨⟨[], [(0, [3221225482]), (1, [42, 43])]⟩,
                regSet Registers.new 1 1, 0, 0, [], []⟩ = .running s' ∧
      s'.pc = 0 ∧
      hLookup s'.segmap.heap 0 = some [42, 43] ∧
      (∀ k, k ≠ 0 →
        hLookup s'.segmap.heap k = hLookup [(0, [3221225482]), (1, [42, 43])] k) ∧
      s'.segmap.pool = [] ∧
      s'.segmap.heap.length = 2 ∧
      ((0 : Nat) = 0 → s'.segmap.get_instruction s'.pc = [42, 43][0]?) :=
  C8_load_program
    ⟨⟨[], [(0, [3221225482]), (1, [42, 43])]⟩, regSet Registers.new 1 1, 0, 0, [], []⟩
    3221225482 ⟨.LoadProgram, 0, 1, 2, 0⟩ [42, 43] rfl rfl rfl rfl

end Rum

namespace Rum

/-! ### Claim C9 (instruction decoding) -/

/-- Unfolding `Instruction.decode` once the opcode is known: `LoadValue`
fills `ra`/`value`, every other opcode fills `ra`/`rb`/`rc`. -/
theorem decode_of_parse (w : Nat) (op : Opcode) (hop : parse_opcode w = some op) :
    Instruction.decode w =
      if op = Opcode.LoadValue then
        some ⟨op, (w >>> 25) &&& 7, 0, 0, ((w <<< 7) % U32MOD) >>> 7⟩
      else
        some ⟨op, (w >>> 6) &&& 7, (w >>> 3) &&& 7, w &&& 7, 0⟩ := by
  unfold Instruction.decode
  rw [hop]
  cases op <;> rfl

/-- Unfolding `Instruction.decode` when the opcode nibble is invalid. -/
theorem decode_of_parse_none (w : Nat) (hop : parse_opcode w = none) :
    Instruction.decode w = none := by
  unfold Instruction.decode
  rw [hop]

/-- The nibble table rejects exactly 14 and 15. -/
theorem parse_nibble_none_iff : ∀ n < 16, (parse_nibble n = none ↔ n = 14 ∨ n = 15) := by
  decide

/-- A successfully parsed opcode's discriminant is its nibble. -/
theorem parse_nibble_some_num :
    ∀ n < 16, ∀ op : Opcode, parse_nibble n = some op → opcodeNum op = n := by
  decide

/-- Claim C9: for a 32-bit word `w`, decoding fails exactly when the top
4 bits are 14 or 15; otherwise the decoded opcode's discriminant is the
top nibble, the immediate-load opcode gets `ra` = bits [27:25] and a
25-bit immediate (`w mod 2^25`, zero-extended: it stays below `2^32`),
every other opcode gets `ra` = bits [8:6], `rb` = bits [5:3],
`rc` = bits [2:0], and all three register fields are in 0–7.
`Instruction.decode` is a pure function of the word alone: no machine
state occurs in it. -/
theorem C9_decode (w : Nat) (hw : w < U32MOD) :
    (Instruction.decode w = none ↔ w >>> 28 = 14 ∨ w >>> 28 = 15) ∧
    ∀ instr, Instruction.decode w = some instr →
      opcodeNum instr.opcode = w >>> 28 ∧
      (instr.opcode = Opcode.LoadValue →
        instr.ra = (w >>> 25) % 8 ∧ instr.value = w % 2 ^ 25 ∧
        instr.value < U32MOD) ∧
      (instr.opcode ≠ Opcode.LoadValue →
        instr.ra = (w >>> 6) % 8 ∧ instr.rb = (w >>> 3) % 8 ∧
        instr.rc = w % 8) ∧
      instr.ra < 8 ∧ instr.rb < 8 ∧ instr.rc < 8 := by
  have h7 : ∀ x : Nat, x &&& 7 = x % 8 := fun x => by
    simpa using Nat.and_pow_two_sub_one_eq_mod x 3
  have h8pos : ∀ x : Nat, x &&& 7 < 8 := fun x => by
    rw [h7]; exact Nat.mod_lt _ (by norm_num)
  have hvalue : ((w <<< 7) % U32MOD) >>> 7 = w % 2 ^ 25 := by
    rw [Nat.shiftLeft_eq, Nat.shiftRight_eq_div_pow]
    have hsplit : U32MOD = 2 ^ 25 * 2 ^ 7 := by norm_num [U32MOD]
    rw [hsplit, Nat.mul_mod_mul_right, Nat.mul_div_cancel _ (by norm_num)]
  have hvlt : w % 2 ^ 25 < U32MOD := by
    have h1 : w % 2 ^ 25 < 2 ^ 25 := Nat.mod_lt _ (by norm_num)
    have h2 : (2 : Nat) ^ 25 < U32MOD := by norm_num [U32MOD]
    exact lt_trans h1 h2
  have htop : w >>> 28 < 16 := by
    rw [Nat.shiftRight_eq_div_pow]
    exact Nat.div_lt_of_lt_mul (by simpa [U32MOD] using hw)
  have hpo : parse_opcode w = parse_nibble (w >>> 28) := by
    unfold parse_opcode
    congr 1
    calc (w >>> 28) &&& 15 = (w >>> 28) % 16 := by
          simpa using Nat.and_pow_two_sub_one_eq_mod (w >>> 28) 4
      _ = w >>> 28 := Nat.mod_eq_of_lt htop
  constructor
  · cases hop : parse_opcode w with
    | none =>
        rw [decode_of_parse_none w hop]
        simpa using (parse_nibble_none_iff _ htop).1 (hpo ▸ hop)
    | some op =>
        rw [decode_of_parse w op hop]
        constructor
        · intro h
          split at h <;> exact Option.noConfusion h
        · intro h
          have hn : parse_nibble (w >>> 28) = none :=
            (parse_nibble_none_iff _ htop).2 h
          rw [hpo, hn] at hop
          exact Option.noConfusion hop
  · intro instr hinstr
    cases hop : parse_opcode w with
    | none =>
        rw [decode_of_parse_none w hop] at hinstr
        exact Option.noConfusion hinstr
    | some op =>
        have hnum : opcodeNum op = w >>> 28 :=
          parse_nibble_some_num _ htop op (hpo ▸ hop)
        rw [decode_of_parse w op hop] at hinstr
        by_cases hlv : op = Opcode.LoadValue
        · rw [if_pos hlv] at hinstr
          injection hinstr with h
          subst h
          refine ⟨hnum, fun _ => ⟨h7 _, hvalue, hvalue ▸ hvlt⟩,
                  fun hne => absurd hlv hne, h8pos _, by norm_num, by norm_num⟩
        · rw [if_neg hlv] at hinstr
          injection hinstr with h
          subst h
          exact ⟨hnum, fun heq => absurd heq hlv,
                 fun _ => ⟨h7 _, h7 _, h7 _⟩, h8pos _, h8pos _, h8pos _⟩

/-- Witness for `C9_decode` at the Add word `3 << 28 + 0b001010`
(ra 0, rb 1, rc 2): decoding succeeds with those fields. -/
theorem C9_decode_witness :
    (Instruction.decode 805306378 = none ↔
      (805306378 : Nat) >>> 28 = 14 ∨ (805306378 : Nat) >>> 28 = 15) ∧
    ∀ instr, Instruction.decode 805306378 = some instr →
      opcodeNum instr.opcode = (805306378 : Nat) >>> 28 ∧
      (instr.opcode = Opcode.LoadValue →
        instr.ra = ((805306378 : Nat) >>> 25) % 8 ∧
        instr.value = 805306378 % 2 ^ 25 ∧ instr.value < U32MOD) ∧
      (instr.opcode ≠ Opcode.LoadValue →
        instr.ra = ((805306378 : Nat) >>> 6) % 8 ∧
        instr.rb = ((805306378 : Nat) >>> 3) % 8 ∧
        instr.rc = 805306378 % 8) ∧
      instr.ra < 8 ∧ instr.rb < 8 ∧ instr.rc < 8 :=
  C9_decode 805306378 (by norm_num [U32MOD])

end Rum

namespace Rum

/-! ### Claim C10 (memory-manager invariant) -/

/-- The fresh memory satisfies the invariant. -/
theorem memInv_new (prog : List Nat) : MemInv (Memory.new prog) := by
  refine ⟨by simp [Memory.new], fun k => ?_, by simp [Memory.new]⟩
  by_cases hk : k = 0
  · subst hk; simp [Memory.new, hLookup]
  · simp [Memory.new, hLookup, Ne.symm hk]
    omega

/-- `hModify` keeps the key set and the length, so it keeps the first two
invariant clauses. -/
theorem memInv_hModify (m : Memory) (k : Nat) (f : List Nat → List Nat)
    (pool : List Nat) (hinv : MemInv m)
    (hpool : ∀ id ∈ pool, id < m.heap.length) :
    MemInv ⟨pool, hModify m.heap k f⟩ := by
  obtain ⟨hpos, hkeys, -⟩ := hinv
  refine ⟨by simpa [hModify_length] using hpos, fun k' => ?_,
          by simpa [hModify_length] using hpool⟩
  rw [hLookup_hModify, hModify_length]
  by_cases hk : k' = k
  · subst hk
    simpa [Option.isSome_map] using hkeys k'
  · rw [if_neg hk]
    exact hkeys k'

/-- `allocate` preserves the invariant. -/
theorem memInv_allocate (m : Memory) (size id : Nat) (m' : Memory)
    (hinv : MemInv m) (h : m.allocate size = some (id, m')) : MemInv m' := by
  obtain ⟨hpos, hkeys, hpool⟩ := hinv
  cases hp : m.pool with
  | nil =>
      rw [Memory.allocate, hp] at h
      obtain ⟨-, rfl⟩ := Prod.mk.injEq .. ▸ Option.some.injEq _ _ ▸ h
      set x := m.heap.length % U32MOD with hx
      by_cases hxl : x < m.heap.length
      · have hsome : (hLookup m.heap x).isSome := (hkeys x).2 hxl
        refine ⟨?_, fun k => ?_, by simp⟩
        · simpa [hInsert_length, hsome] using hpos
        · rw [hLookup_hInsert, hInsert_length, if_pos hsome]
          by_cases hk : k = x
          · subst hk; simpa using hxl
          · simp only [if_neg hk]
            exact hkeys k
      · have hxeq : x = m.heap.length := by
          have := Nat.mod_le m.heap.length U32MOD
          omega
        have hnone : ¬ (hLookup m.heap x).isSome := fun hs => hxl ((hkeys x).1 hs)
        refine ⟨?_, fun k => ?_, by simp⟩
        · rw [hInsert_length, if_neg hnone]
          omega
        · rw [hLookup_hInsert, hInsert_length, if_neg hnone]
          by_cases hk : k = x
          · subst hk; simp [hxeq]
          · simp only [if_neg hk]
            rw [hxeq] at hk
            have := hkeys k
            constructor
            · intro hs; exact Nat.lt_succ_of_lt (this.1 hs)
            · intro hlt
              exact this.2 (by omega)
  | cons a rest =>
      simp only [Memory.allocate, hp] at h
      by_cases ha : a < m.heap.length % U32MOD
      · rw [if_pos ha] at h
        cases hl : hLookup m.heap a with
        | none => rw [hl] at h; exact Option.noConfusion h
        | some v =>
            rw [hl] at h
            obtain ⟨-, rfl⟩ := Prod.mk.injEq .. ▸ Option.some.injEq _ _ ▸ h
            exact memInv_hModify m a _ rest ⟨hpos, hkeys, hpool⟩
              fun i hi => hpool i (by simp [hp, hi])
      · rw [if_neg ha] at h
        exact Option.noConfusion h

/-- `deallocate` preserves the invariant. -/
theorem memInv_deallocate (m : Memory) (id : Nat) (m' : Memory)
    (hinv : MemInv m) (h : m.deallocate id = some m') : MemInv m' := by
  rw [Memory.deallocate] at h
  by_cases hid : id < m.heap.length % U32MOD
  · rw [if_pos hid] at h
    cases hl : hLookup m.heap id with
    | none => simp only [hl] at h; exact Option.noConfusion h
    | some v =>
        simp only [hl] at h
        obtain rfl := Option.some.inj h
        refine memInv_hModify m id _ (id :: m.pool) hinv fun i hi => ?_
        rcases List.mem_cons.1 hi with rfl | hi
        · have := Nat.mod_le m.heap.length U32MOD
          omega
        · exact hinv.2.2 i hi
  · rw [if_neg hid] at h
    exact Option.noConfusion h

/-- `store` preserves the invariant. -/
theorem memInv_store (m : Memory) (a b c : Nat) (m' : Memory)
    (hinv : MemInv m) (h : m.store a b c = some m') : MemInv m' := by
  rw [Memory.store] at h
  cases hl : hLookup m.heap a with
  | none => simp only [hl] at h; exact Option.noConfusion h
  | some v =>
      simp only [hl] at h
      by_cases hb : b < v.length
      · rw [if_pos hb] at h
        obtain rfl := Option.some.inj h
        exact memInv_hModify m a _ m.pool hinv hinv.2.2
      · rw [if_neg hb] at h
        exact Option.noConfusion h

/-- `load_segment` preserves the invariant. -/
theorem memInv_load_segment (m : Memory) (id : Nat) (m' : Memory)
    (hinv : MemInv m) (h : m.load_segment id = some m') : MemInv m' := by
  rw [Memory.load_segment] at h
  cases hl : hLookup m.heap id with
  | none => simp only [hl] at h; exact Option.noConfusion h
  | some v =>
      simp only [hl] at h
      cases h0 : hLookup m.heap PROGRAM_ADDRESS with
      | none => simp only [h0] at h; exact Option.noConfusion h
      | some v0 =>
          simp only [h0] at h
          obtain rfl := Option.some.inj h
          exact memInv_hModify m PROGRAM_ADDRESS _ m.pool hinv hinv.2.2

/-- Any successful operation preserves the invariant. -/
theorem memInv_applyOp (m : Memory) (op : MemOp) (m' : Memory)
    (hinv : MemInv m) (h : applyOp m op = some m') : MemInv m' := by
  cases op with
  | alloc size =>
      rw [applyOp] at h
      cases ha : m.allocate size with
      | none => rw [ha] at h; exact Option.noConfusion h
      | some pr =>
          rw [ha] at h
          obtain rfl := Option.some.inj h
          exact memInv_allocate m size pr.1 pr.2 hinv (by rw [ha])
  | dealloc id => exact memInv_deallocate m id m' hinv h
  | store a b c => exact memInv_store m a b c m' hinv h
  | loadSeg id => exact memInv_load_segment m id m' hinv h

/-- Claim C10: starting from the initial memory, after every sequence of
`allocate` / `deallocate` / `store` / `load_segment` operations that do
not fault, the key set of the segment table is exactly
`{0, …, heap.length − 1}` (so segment 0 always exists — the key the
per-cycle fetch looks up is present) and every pooled id is below the
table size (so the pool-reuse lookup in `allocate` and the post-assert
lookup in `deallocate` find their key). -/
theorem C10_memory_invariant (prog : List Nat) (ops : List MemOp) (m' : Memory)
    (h : applyOps (Memory.new prog) ops = some m') :
    MemInv m' ∧ (hLookup m'.heap 0).isSome := by
  have main : ∀ (ops : List MemOp) (m m' : Memory), MemInv m →
      applyOps m ops = some m' → MemInv m' := by
    intro ops
    induction ops with
    | nil =>
        intro m m' hm h
        rw [applyOps] at h
        obtain rfl := Option.some.inj h
        exact hm
    | cons op rest ih =>
        intro m m' hm h
        rw [applyOps] at h
        cases ha : applyOp m op with
        | none => rw [ha] at h; exact Option.noConfusion h
        | some m₁ =>
            rw [ha] at h
            exact ih m₁ m' (memInv_applyOp m op m₁ hm ha) h
  have hinv := main ops (Memory.new prog) m' (memInv_new prog) h
  exact ⟨hinv, (hinv.2.1 0).2 hinv.1⟩

/-- Witness for `C10_memory_invariant`: allocate, free, reallocate, store
and reload on a concrete memory; the resulting table `{0 ↦ [9], 1 ↦ [9]}`
with empty pool satisfies the invariant. -/
theorem C10_memory_invariant_witness :
    MemInv ⟨[], [(0, [9]), (1, [9])]⟩ ∧
    (hLookup (⟨[], [(0, [9]), (1, [9])]⟩ : Memory).heap 0).isSome :=
  C10_memory_invariant [5]
    [.alloc 2, .dealloc 1, .alloc 1, .store 1 0 9, .loadSeg 1]
    ⟨[], [(0, [9]), (1, [9])]⟩ (by decide)

end Rum
